import Mathlib

/-!
Shallow embedding of `fw/register_spi_slave.h` (class `RegisterSPISlave`).

The C++ class is an interrupt-driven SPI slave protocol engine.  We embed the
three interrupt service routines (`ISR_HandleNssFall`, `ISR_HandleNssRise`,
`ISR_SPI` with its inner `ISR_PrepareTx`) as pure functions over an explicit
engine state.  Hardware interaction is made explicit:

* a received byte is a `Nat` (the value read from the 8-bit data register);
* an invocation of `ISR_SPI` is given the list of bytes pending in the
  receive path, each paired with the number of free transmit slots the
  `SPI_SR_TXE` polling loop of `ISR_PrepareTx` observes right after that byte
  is consumed;
* every byte written to the data register is recorded, in order, in an output
  list; every invocation of a user callback is recorded in a call list.

`tx_bytes_` (`size_t`) and `rx_bytes_` (`ssize_t`) are modelled as `Nat`:
both start at 0 and are only ever incremented or reset to 0, so `rx_bytes_`
never goes negative and the `rx_bytes_ < buffer_.rx.size()` comparison agrees
with the `Nat` comparison.
-/

namespace RegisterSPISlave

/-- The `Mode` enumeration of the source: `kInactive`, `kWaitingAddress`,
`kTransfer`. -/
inductive Mode
  | kInactive
  | kWaitingAddress
  | kTransfer
deriving DecidableEq, Repr

/-- `RegisterSPISlave::Buffer`: `tx` is the read-only byte sequence handed out
to the master, `rx` the fixed-capacity storage for bytes received from the
master (its length is the capacity `buffer_.rx.size()`). -/
structure Buffer where
  tx : List Nat
  rx : List Nat
deriving DecidableEq, Repr

/-- The mutable protocol state of the class: `mode_`, `current_address_`,
`buffer_`, `tx_bytes_`, `rx_bytes_`. -/
structure EngineState where
  mode : Mode
  current_address : Nat
  buffer : Buffer
  tx_bytes : Nat
  rx_bytes : Nat
deriving DecidableEq, Repr

/-- The state the C++ member initializers produce: `mode_ = kInactive`,
`current_address_ = 0`, empty default `buffer_`, both counters 0. -/
def initEngine : EngineState :=
  { mode := Mode.kInactive, current_address := 0,
    buffer := { tx := [], rx := [] }, tx_bytes := 0, rx_bytes := 0 }

/-- An invocation of one of the two user callbacks, as recorded in a trace:
`startCb a` is `start_handler_(a)`, `endCb a n` is `end_handler_(a, n)`. -/
inductive CbCall
  | startCb (address : Nat)
  | endCb (address : Nat) (rxCount : Nat)
deriving DecidableEq, Repr

/-- True exactly for an end-handler invocation. -/
def isEnd : CbCall → Bool
  | CbCall.startCb _ => false
  | CbCall.endCb _ _ => true

/-- The argument pair of an end-handler invocation, if it is one. -/
def endArg : CbCall → Option (Nat × Nat)
  | CbCall.startCb _ => none
  | CbCall.endCb a n => some (a, n)

/-- `ISR_PrepareTx`: while the peripheral reports a free transmit slot
(`SPI_SR_TXE`), write `buffer_.tx[tx_bytes_]` when `tx_bytes_` is in range and
0 otherwise to the data register, incrementing `tx_bytes_` each iteration.
The second argument is the number of free slots the polling loop observes.
Returns the updated state and the bytes written, in order. -/
def ISR_PrepareTx : EngineState → Nat → EngineState × List Nat
  | s, 0 => (s, [])
  | s, k + 1 =>
    let this_byte := if s.tx_bytes < s.buffer.tx.length
                     then s.buffer.tx.getD s.tx_bytes 0 else 0
    let p := ISR_PrepareTx { s with tx_bytes := s.tx_bytes + 1 } k
    (p.1, this_byte :: p.2)

/-- `ISR_SPI`: drain every byte pending in the receive path (`SPI_SR_RXNE`
loop).  Each pending byte is paired with the number of free transmit slots
the `ISR_PrepareTx` call that follows it observes.  The start handler is the
function parameter `sh`.  Returns the new state, the bytes written to the
data register, and the callback invocations, in order. -/
def ISR_SPI (sh : Nat → Buffer) :
    EngineState → List (Nat × Nat) → EngineState × List Nat × List CbCall
  | s, [] => (s, [], [])
  | s, (b, slots) :: rest =>
    match s.mode with
    | Mode.kInactive =>
      -- case kInactive: the byte is read from the data register and ignored.
      ISR_SPI sh s rest
    | Mode.kWaitingAddress =>
      -- case kWaitingAddress: store the address, obtain the buffers from the
      -- start handler, prime the transmit side, switch to kTransfer.
      let s1 : EngineState := { s with current_address := b, buffer := sh b }
      let p := ISR_PrepareTx s1 slots
      let s3 : EngineState := { p.1 with mode := Mode.kTransfer }
      let q := ISR_SPI sh s3 rest
      (q.1, p.2 ++ q.2.1, CbCall.startCb b :: q.2.2)
    | Mode.kTransfer =>
      -- case kTransfer: store the byte when in range, count it regardless,
      -- then prime the transmit side again.
      let rx1 := if s.rx_bytes < s.buffer.rx.length
                 then s.buffer.rx.set s.rx_bytes b else s.buffer.rx
      let s1 : EngineState :=
        { s with buffer := { tx := s.buffer.tx, rx := rx1 },
                 rx_bytes := s.rx_bytes + 1 }
      let p := ISR_PrepareTx s1 slots
      let q := ISR_SPI sh p.1 rest
      (q.1, p.2 ++ q.2.1, q.2.2)

/-- `ISR_HandleNssRise` (select deassertion): invoke the end handler with
`(current_address_, rx_bytes_)` if the transaction reached `kTransfer`, zero
both counters, re-initialize the peripheral (a pure hardware effect), and
return to `kInactive`. -/
def ISR_HandleNssRise (s : EngineState) : EngineState × List Nat × List CbCall :=
  ({ s with mode := Mode.kInactive, tx_bytes := 0, rx_bytes := 0 },
   [],
   if s.mode = Mode.kTransfer
   then [CbCall.endCb s.current_address s.rx_bytes] else [])

/-- `ISR_HandleNssFall` (select assertion): lower the status LED (not
modelled), switch to `kWaitingAddress`, and queue the placeholder response
for the address byte by writing 0 to the data register. -/
def ISR_HandleNssFall (s : EngineState) : EngineState × List Nat × List CbCall :=
  ({ s with mode := Mode.kWaitingAddress }, [0], [])

/-- An interrupt delivered to the engine: a select edge or a byte-pump
invocation with its pending receive bytes. -/
inductive Event
  | nssFall
  | nssRise
  | spi (pairs : List (Nat × Nat))

/-- Dispatch one interrupt. -/
def step (sh : Nat → Buffer) (s : EngineState) :
    Event → EngineState × List Nat × List CbCall
  | Event.nssFall => ISR_HandleNssFall s
  | Event.nssRise => ISR_HandleNssRise s
  | Event.spi pairs => ISR_SPI sh s pairs

/-- Run a sequence of interrupts, concatenating the written bytes and the
callback invocations. -/
def run (sh : Nat → Buffer) (s : EngineState) :
    List Event → EngineState × List Nat × List CbCall
  | [] => (s, [], [])
  | e :: es =>
    let p := step sh s e
    let q := run sh p.1 es
    (q.1, p.2.1 ++ q.2.1, p.2.2 ++ q.2.2)

/-- The interrupt sequence of one framed transaction: select assertion, a
first byte-pump invocation delivering the address byte (with `k0` free
transmit slots) and possibly the first data bytes, further byte-pump
invocations for the remaining data bytes, then select deassertion. -/
def txnEvents (addr k0 : Nat) (data0 : List (Nat × Nat))
    (chunks : List (List (Nat × Nat))) : List Event :=
  Event.nssFall :: Event.spi ((addr, k0) :: data0) ::
    (chunks.map Event.spi ++ [Event.nssRise])

/-- The bytes `ISR_PrepareTx` writes for `k` free slots starting at offset
`t`: `tx[t + i]` when in range and 0 otherwise, for `i < k`. -/
def txSlice (tx : List Nat) : Nat → Nat → List Nat
  | _, 0 => []
  | t, k + 1 =>
    (if t < tx.length then tx.getD t 0 else 0) :: txSlice tx (t + 1) k

/-- The receive-storage loop of the data phase: starting at index `i`, each
byte is stored when `i` is below the capacity and dropped otherwise, and the
index advances either way. -/
def storeLoop : List Nat → Nat → List Nat → List Nat
  | rx, _, [] => rx
  | rx, i, b :: bs =>
    storeLoop (if i < rx.length then rx.set i b else rx) (i + 1) bs

/-- Total number of free transmit slots reported across a list of pending
receive bytes. -/
def sumSlots (ps : List (Nat × Nat)) : Nat := (ps.map Prod.snd).sum

/-- `merge`, used on the four pin-to-peripheral lookups: the common value if
the two agree, otherwise the value-initialized default (0, which
`reinterpret_cast` turns into the null `SPI_TypeDef*`). -/
def merge (a b : Nat) : Nat := if a = b then a else 0

/-- The constructor's resolution of the peripheral instance:
`merge(mosi, merge(miso, merge(sclk, ssel)))` over the four lookups. -/
def resolveSpi (mosi miso sclk ssel : Nat) : Nat :=
  merge mosi (merge miso (merge sclk ssel))

/-- The constructor's outcome: `MJ_ASSERT(spi_ != nullptr)` aborts (`none`)
when the resolved instance is null, otherwise construction proceeds with the
resolved instance. -/
def constructSpi (mosi miso sclk ssel : Nat) : Option Nat :=
  if resolveSpi mosi miso sclk ssel = 0 then none
  else some (resolveSpi mosi miso sclk ssel)

/-- The NSS line together with the engine: `nss_low = true` means select is
asserted (the line is active low). -/
structure LineState where
  nss_low : Bool
  eng : EngineState
deriving Repr

/-- A stimulus at the hardware boundary: the master drives the select line to
a level, or the SPI interrupt fires with pending bytes. -/
inductive LineInput
  | setSelect (asserted : Bool)
  | spiIrq (pairs : List (Nat × Nat))

/-- Drive the select line or the SPI interrupt.  The edge interrupts
(`nss_.fall`, `nss_.rise` in the constructor) fire only on an actual level
change of the line: driving the line to the level it already has invokes no
handler. -/
def lineStep (sh : Nat → Buffer) (ls : LineState) :
    LineInput → LineState × List Nat × List CbCall
  | LineInput.setSelect a =>
    if a = ls.nss_low then (ls, [], [])
    else
      let p := if a then ISR_HandleNssFall ls.eng else ISR_HandleNssRise ls.eng
      ({ nss_low := a, eng := p.1 }, p.2)
  | LineInput.spiIrq pairs =>
    let p := ISR_SPI sh ls.eng pairs
    ({ ls with eng := p.1 }, p.2)

/-- Run a sequence of line-level stimuli. -/
def lineRun (sh : Nat → Buffer) (ls : LineState) :
    List LineInput → LineState × List Nat × List CbCall
  | [] => (ls, [], [])
  | i :: is =>
    let p := lineStep sh ls i
    let q := lineRun sh p.1 is
    (q.1, p.2.1 ++ q.2.1, p.2.2 ++ q.2.2)

/-- The state at reset: line deasserted (pull-up), engine as constructed. -/
def initLine : LineState := { nss_low := false, eng := initEngine }

/-- Whenever select is deasserted the engine is `kInactive` with both
counters zero (`Bool`-valued so it can be evaluated on concrete states). -/
def lineIdle (ls : LineState) : Bool :=
  ls.nss_low ||
    (decide (ls.eng.mode = Mode.kInactive) &&
     decide (ls.eng.tx_bytes = 0) && decide (ls.eng.rx_bytes = 0))

/-- Two engine states that no sequence of interrupts can tell apart through
the written bytes or the callback invocations: same mode and counters, and
identical address/buffers once the data phase has been entered. -/
def SameObs (s t : EngineState) : Prop :=
  s.mode = t.mode ∧ s.tx_bytes = t.tx_bytes ∧ s.rx_bytes = t.rx_bytes ∧
  (s.mode = Mode.kTransfer → s.current_address = t.current_address ∧ s.buffer = t.buffer)

/-! ## Helper lemmas -/

/-- `ISR_PrepareTx` advances `tx_bytes_` by the number of free slots and
writes exactly the corresponding slice of the tx buffer, zero-padded. -/
theorem prepareTx_eq (k : Nat) (s : EngineState) :
    ISR_PrepareTx s k =
      ({ s with tx_bytes := s.tx_bytes + k }, txSlice s.buffer.tx s.tx_bytes k) := by
  induction k generalizing s with
  | zero => simp [ISR_PrepareTx, txSlice]
  | succ k ih =>
    simp [ISR_PrepareTx, txSlice, ih]
    omega

/-- Splitting a tx slice at an intermediate offset. -/
theorem txSlice_append (tx : List Nat) (a : Nat) :
    ∀ (t b : Nat), txSlice tx t (a + b) = txSlice tx t a ++ txSlice tx (t + a) b := by
  induction a with
  | zero => intro t b; simp [txSlice]
  | succ a ih =>
    intro t b
    have h : a + 1 + b = (a + b) + 1 := by omega
    have h2 : t + (a + 1) = (t + 1) + a := by omega
    rw [h, txSlice, txSlice, h2, ih (t + 1) b]
    simp

/-- Closed form of a tx slice: the remaining tx content, then zero padding. -/
theorem txSlice_closed (tx : List Nat) :
    ∀ (k t : Nat),
      txSlice tx t k = (tx.drop t).take k ++ List.replicate (k - (tx.length - t)) 0 := by
  intro k
  induction k with
  | zero => intro t; simp [txSlice]
  | succ k ih =>
    intro t
    rw [txSlice, ih (t + 1)]
    by_cases h : t < tx.length
    · rw [List.drop_eq_getElem_cons h, List.take_succ_cons]
      have hc : k + 1 - (tx.length - t) = k - (tx.length - (t + 1)) := by omega
      simp [h, List.getD_eq_getElem tx 0 h, hc]
    · have hd : tx.length ≤ t := by omega
      rw [List.drop_eq_nil_of_le hd, List.drop_eq_nil_of_le (by omega : tx.length ≤ t + 1)]
      have hc : k + 1 - (tx.length - t) = k + 1 := by omega
      have hc2 : k - (tx.length - (t + 1)) = k := by omega
      simp [h, hc, hc2, List.replicate_succ]

/-- `sumSlots` over a cons cell. -/
theorem sumSlots_cons (x : Nat × Nat) (ps : List (Nat × Nat)) :
    sumSlots (x :: ps) = x.2 + sumSlots ps := by
  simp [sumSlots]

/-- While `kInactive`, the byte pump reads and discards every pending byte:
the state is unchanged, nothing is written, no callback fires. -/
theorem spi_inactive (sh : Nat → Buffer) (a : Nat) (b : Buffer) (t r : Nat) :
    ∀ (ps : List (Nat × Nat)),
      ISR_SPI sh ⟨Mode.kInactive, a, b, t, r⟩ ps = (⟨Mode.kInactive, a, b, t, r⟩, [], []) := by
  intro ps
  induction ps with
  | nil => rfl
  | cons p rest ih =>
    obtain ⟨x, k⟩ := p
    simpa [ISR_SPI] using ih

/-- The byte pump over a whole data phase (`kTransfer` throughout): every
byte is counted, in-range bytes are stored, the transmit side writes the next
slice of the tx stream, and no callback fires. -/
theorem spi_transfer (sh : Nat → Buffer) :
    ∀ (ps : List (Nat × Nat)) (a : Nat) (b : Buffer) (t r : Nat),
      ISR_SPI sh ⟨Mode.kTransfer, a, b, t, r⟩ ps =
        (⟨Mode.kTransfer, a, ⟨b.tx, storeLoop b.rx r (ps.map Prod.fst)⟩,
          t + sumSlots ps, r + ps.length⟩,
         txSlice b.tx t (sumSlots ps), []) := by
  intro ps
  induction ps with
  | nil => intro a b t r; simp [ISR_SPI, storeLoop, sumSlots, txSlice]
  | cons p rest ih =>
    intro a b t r
    obtain ⟨x, k⟩ := p
    rw [ISR_SPI]
    simp only [prepareTx_eq, ih, storeLoop, sumSlots_cons, List.map_cons, List.length_cons]
    have harith : t + (k + sumSlots rest) = t + k + sumSlots rest := by omega
    have hlen : r + (rest.length + 1) = r + 1 + rest.length := by omega
    rw [harith, hlen, txSlice_append b.tx k t (sumSlots rest)]

/-- Draining two batches of pending bytes in one `ISR_SPI` invocation is the
same as draining them in two consecutive invocations. -/
theorem spi_append (sh : Nat → Buffer) :
    ∀ (p q : List (Nat × Nat)) (s : EngineState),
      ISR_SPI sh s (p ++ q) =
        ((ISR_SPI sh (ISR_SPI sh s p).1 q).1,
         (ISR_SPI sh s p).2.1 ++ (ISR_SPI sh (ISR_SPI sh s p).1 q).2.1,
         (ISR_SPI sh s p).2.2 ++ (ISR_SPI sh (ISR_SPI sh s p).1 q).2.2) := by
  intro p
  induction p with
  | nil => intro q s; simp [ISR_SPI]
  | cons hd rest ih =>
    intro q s
    obtain ⟨x, k⟩ := hd
    obtain ⟨m, a, b, t, r⟩ := s
    cases m <;> simp [ISR_SPI, ih]

/-- Two consecutive byte-pump invocations merge into one. -/
theorem run_spi_spi (sh : Nat → Buffer) (p q : List (Nat × Nat)) (l : List Event)
    (s : EngineState) :
    run sh s (Event.spi p :: Event.spi q :: l) = run sh s (Event.spi (p ++ q) :: l) := by
  simp [run, step, spi_append]

/-- A byte-pump invocation followed by further byte-pump invocations merges
into a single invocation draining the concatenation. -/
theorem run_chunks (sh : Nat → Buffer) :
    ∀ (chunks : List (List (Nat × Nat))) (ps : List (Nat × Nat)) (l : List Event)
      (s : EngineState),
      run sh s (Event.spi ps :: (chunks.map Event.spi ++ l)) =
        run sh s (Event.spi (ps ++ chunks.flatten) :: l) := by
  intro chunks
  induction chunks with
  | nil => intro ps l s; simp
  | cons c cs ih =>
    intro ps l s
    rw [List.map_cons, List.cons_append, run_spi_spi, ih (ps ++ c) l s]
    simp

/-- The interrupt sequence of a framed transaction, with all data bytes
delivered in the same `ISR_SPI` invocation as the address byte. -/
theorem run_txn_core (sh : Nat → Buffer) (a0 : Nat) (b0 : Buffer) (addr k0 : Nat)
    (data : List (Nat × Nat)) :
    run sh ⟨Mode.kInactive, a0, b0, 0, 0⟩
        [Event.nssFall, Event.spi ((addr, k0) :: data), Event.nssRise] =
      (⟨Mode.kInactive, addr,
        ⟨(sh addr).tx, storeLoop (sh addr).rx 0 (data.map Prod.fst)⟩, 0, 0⟩,
       0 :: txSlice (sh addr).tx 0 (k0 + sumSlots data),
       [CbCall.startCb addr, CbCall.endCb addr data.length]) := by
  rw [run, run, run, run]
  simp only [step, ISR_HandleNssFall, ISR_HandleNssRise]
  rw [ISR_SPI]
  simp only [prepareTx_eq, spi_transfer]
  rw [txSlice_append (sh addr).tx k0 0 (sumSlots data)]
  simp

/-- Regrouping: a framed transaction whose data bytes arrive across many
byte-pump invocations equals the same transaction with one invocation. -/
theorem run_txn_reshape (sh : Nat → Buffer) (s : EngineState) (ps : List (Nat × Nat))
    (chunks : List (List (Nat × Nat))) :
    run sh s (Event.nssFall :: Event.spi ps :: (chunks.map Event.spi ++ [Event.nssRise])) =
      run sh s [Event.nssFall, Event.spi (ps ++ chunks.flatten), Event.nssRise] := by
  rw [run, run_chunks sh chunks ps [Event.nssRise]]
  simp [run, List.append_assoc]

/-- The general framed transaction from a reset engine state: the start
handler fires once with the address, the data phase stores and counts the
received bytes and streams the tx buffer zero-padded, and the end handler
fires once with the address and the exact count of data bytes. -/
theorem run_txn (sh : Nat → Buffer) (a0 : Nat) (b0 : Buffer) (addr k0 : Nat)
    (data0 : List (Nat × Nat)) (chunks : List (List (Nat × Nat))) :
    run sh ⟨Mode.kInactive, a0, b0, 0, 0⟩ (txnEvents addr k0 data0 chunks) =
      (⟨Mode.kInactive, addr,
        ⟨(sh addr).tx,
         storeLoop (sh addr).rx 0 ((data0 ++ chunks.flatten).map Prod.fst)⟩, 0, 0⟩,
       0 :: txSlice (sh addr).tx 0 (k0 + sumSlots (data0 ++ chunks.flatten)),
       [CbCall.startCb addr, CbCall.endCb addr (data0 ++ chunks.flatten).length]) := by
  rw [txnEvents, run_txn_reshape, List.cons_append, run_txn_core]

/-- Equal states are observationally equal. -/
theorem sameObs_of_eq {s t : EngineState} (h : s = t) : SameObs s t := by
  subst h
  exact ⟨rfl, rfl, rfl, fun _ => ⟨rfl, rfl⟩⟩

/-- The byte pump preserves observational equality and produces the same
written bytes and the same callback invocations on observationally equal
states. -/
theorem spi_obs (sh : Nat → Buffer) :
    ∀ (ps : List (Nat × Nat)) (s t : EngineState), SameObs s t →
      (ISR_SPI sh s ps).2 = (ISR_SPI sh t ps).2 ∧
      SameObs (ISR_SPI sh s ps).1 (ISR_SPI sh t ps).1 := by
  intro ps
  induction ps with
  | nil => intro s t h; exact ⟨rfl, h⟩
  | cons hd rest ih =>
    intro s t h
    obtain ⟨x, k⟩ := hd
    obtain ⟨ms, sa, sb, st, sr⟩ := s
    obtain ⟨mt, ta, tb, tt, tr⟩ := t
    obtain ⟨hm, htx, hrx, hk⟩ := h
    simp only at hm htx hrx
    subst hm htx hrx
    cases ms with
    | kInactive =>
      exact ih _ _ ⟨rfl, rfl, rfl, fun hc => by simp at hc⟩
    | kWaitingAddress =>
      exact ⟨rfl, sameObs_of_eq rfl⟩
    | kTransfer =>
      obtain ⟨ha, hb⟩ := hk rfl
      simp only at ha hb
      subst ha hb
      exact ⟨rfl, sameObs_of_eq rfl⟩

/-- One interrupt preserves observational equality and its observable
effects. -/
theorem step_obs (sh : Nat → Buffer) (e : Event) (s t : EngineState) (h : SameObs s t) :
    (step sh s e).2 = (step sh t e).2 ∧ SameObs (step sh s e).1 (step sh t e).1 := by
  obtain ⟨hm, htx, hrx, hk⟩ := h
  cases e with
  | nssFall =>
    refine ⟨rfl, rfl, htx, hrx, fun hc => ?_⟩
    simp [step, ISR_HandleNssFall] at hc
  | nssRise =>
    refine ⟨?_, rfl, rfl, rfl, fun hc => ?_⟩
    · simp only [step, ISR_HandleNssRise, hm]
      by_cases hmode : t.mode = Mode.kTransfer
      · obtain ⟨ha, hb⟩ := hk (hm.trans hmode)
        simp [hmode, ha, hrx]
      · simp [hmode]
    · simp [step, ISR_HandleNssRise] at hc
  | spi ps => exact spi_obs sh ps s t ⟨hm, htx, hrx, hk⟩

/-- A whole interrupt sequence preserves observational equality and its
observable effects. -/
theorem run_obs (sh : Nat → Buffer) :
    ∀ (events : List Event) (s t : EngineState), SameObs s t →
      (run sh s events).2 = (run sh t events).2 ∧
      SameObs (run sh s events).1 (run sh t events).1 := by
  intro events
  induction events with
  | nil => intro s t h; exact ⟨rfl, h⟩
  | cons e es ih =>
    intro s t h
    obtain ⟨h2, hobs⟩ := step_obs sh e s t h
    obtain ⟨h2r, hobsr⟩ := ih _ _ hobs
    refine ⟨?_, hobsr⟩
    have h21 : (step sh s e).2.1 = (step sh t e).2.1 := by rw [h2]
    have h22 : (step sh s e).2.2 = (step sh t e).2.2 := by rw [h2]
    have h2r1 : (run sh (step sh s e).1 es).2.1 = (run sh (step sh t e).1 es).2.1 := by
      rw [h2r]
    have h2r2 : (run sh (step sh s e).1 es).2.2 = (run sh (step sh t e).1 es).2.2 := by
      rw [h2r]
    simp [run, h21, h22, h2r1, h2r2]

/-- One line-level stimulus preserves the idle invariant: whenever select is
deasserted the engine is `kInactive` with both counters zero. -/
theorem lineStep_idle (sh : Nat → Buffer) (ls : LineState) (i : LineInput)
    (h : lineIdle ls = true) : lineIdle (lineStep sh ls i).1 = true := by
  obtain ⟨nss, m, a, b, t, r⟩ := ls
  cases i with
  | setSelect lvl =>
    by_cases he : lvl = nss
    · simpa [lineStep, he] using h
    · cases lvl
      · simp [lineStep, he, ISR_HandleNssRise, lineIdle]
      · simp [lineStep, he, ISR_HandleNssFall, lineIdle]
  | spiIrq ps =>
    cases nss
    · simp only [lineIdle, Bool.false_or, Bool.and_eq_true, decide_eq_true_eq] at h
      obtain ⟨⟨hm, htx⟩, hrx⟩ := h
      subst hm htx hrx
      simp [lineStep, spi_inactive, lineIdle]
    · simp [lineStep, lineIdle]

/-- The idle invariant holds after any sequence of line-level stimuli. -/
theorem lineRun_idle (sh : Nat → Buffer) :
    ∀ (inputs : List LineInput) (ls : LineState), lineIdle ls = true →
      lineIdle (lineRun sh ls inputs).1 = true := by
  intro inputs
  induction inputs with
  | nil => intro ls h; exact h
  | cons i is ih =>
    intro ls h
    exact ih _ (lineStep_idle sh ls i h)

/-- The prefix of a transaction up to and including the address byte: the
start handler has fired exactly once, with the address, its buffers are
stored, the transmit side is primed from them, and the mode is `kTransfer`
before any data byte is processed. -/
theorem run_addr (sh : Nat → Buffer) (a0 : Nat) (b0 : Buffer) (addr k0 : Nat) :
    run sh ⟨Mode.kInactive, a0, b0, 0, 0⟩ [Event.nssFall, Event.spi [(addr, k0)]] =
      (⟨Mode.kTransfer, addr, sh addr, k0, 0⟩,
       0 :: txSlice (sh addr).tx 0 k0, [CbCall.startCb addr]) := by
  rw [run, run, run]
  simp only [step, ISR_HandleNssFall]
  rw [ISR_SPI]
  simp [prepareTx_eq, ISR_SPI]

/-! ## Claim theorems -/

/-- Claim C1: for every transaction that reaches the data phase — any start
handler (hence any rx capacity), any address, any grouping of the data bytes
over byte-pump invocations — the receive count passed to the end handler is
exactly the number of data-phase bytes received; and each single data-phase
byte is stored at `rx[rx_bytes_]` only when `rx_bytes_` is below the rx
capacity while `rx_bytes_` increments unconditionally. -/
theorem C1_rx_count_exact (sh : Nat → Buffer) (a0 : Nat) (b0 : Buffer)
    (addr k0 : Nat) (data0 : List (Nat × Nat)) (chunks : List (List (Nat × Nat))) :
    ((run sh ⟨Mode.kInactive, a0, b0, 0, 0⟩
        (txnEvents addr k0 data0 chunks)).2.2).filterMap endArg =
      [(addr, (data0 ++ chunks.flatten).length)] ∧
    (∀ (s : EngineState) (x k : Nat),
      (ISR_SPI sh { s with mode := Mode.kTransfer } [(x, k)]).1.rx_bytes =
          s.rx_bytes + 1 ∧
      (ISR_SPI sh { s with mode := Mode.kTransfer } [(x, k)]).1.buffer.rx =
        (if s.rx_bytes < s.buffer.rx.length then s.buffer.rx.set s.rx_bytes x
         else s.buffer.rx)) := by
  constructor
  · rw [run_txn]
    simp [endArg]
  · intro s x k
    obtain ⟨m, a, b, t, r⟩ := s
    simp [spi_transfer, storeLoop]

/-- Claim C2: over a whole transaction, the byte stream written to the
transmit path is the placeholder 0 followed by the tx buffer's content and
then zero padding once it is exhausted, whatever the tx buffer's length. -/
theorem C2_tx_stream (sh : Nat → Buffer) (a0 : Nat) (b0 : Buffer)
    (addr k0 : Nat) (data0 : List (Nat × Nat)) (chunks : List (List (Nat × Nat))) :
    (run sh ⟨Mode.kInactive, a0, b0, 0, 0⟩ (txnEvents addr k0 data0 chunks)).2.1 =
      0 :: ((sh addr).tx.take (k0 + sumSlots (data0 ++ chunks.flatten)) ++
        List.replicate
          ((k0 + sumSlots (data0 ++ chunks.flatten)) - (sh addr).tx.length) 0) ∧
    (∀ (s : EngineState),
      ISR_PrepareTx s 1 =
        ({ s with tx_bytes := s.tx_bytes + 1 },
         [if s.tx_bytes < s.buffer.tx.length then s.buffer.tx.getD s.tx_bytes 0
          else 0])) := by
  constructor
  · rw [run_txn, txSlice_closed]
    simp
  · intro s
    simp [prepareTx_eq, txSlice]

/-- Claim C3: the start handler fires exactly once per transaction, with the
received address byte, strictly after the address byte and strictly before
any data byte: right after the address byte the only recorded call is
`startCb addr`, the returned buffers are stored and the mode is `kTransfer`;
over the whole transaction the calls are exactly `startCb` then `endCb`, and
every data-phase store and transmit fill uses the buffers the start handler
returned for the address. -/
theorem C3_start_callback (sh : Nat → Buffer) (a0 : Nat) (b0 : Buffer)
    (addr k0 : Nat) (data0 : List (Nat × Nat)) (chunks : List (List (Nat × Nat))) :
    run sh ⟨Mode.kInactive, a0, b0, 0, 0⟩ [Event.nssFall, Event.spi [(addr, k0)]] =
      (⟨Mode.kTransfer, addr, sh addr, k0, 0⟩,
       0 :: txSlice (sh addr).tx 0 k0, [CbCall.startCb addr]) ∧
    run sh ⟨Mode.kInactive, a0, b0, 0, 0⟩ (txnEvents addr k0 data0 chunks) =
      (⟨Mode.kInactive, addr,
        ⟨(sh addr).tx,
         storeLoop (sh addr).rx 0 ((data0 ++ chunks.flatten).map Prod.fst)⟩, 0, 0⟩,
       0 :: txSlice (sh addr).tx 0 (k0 + sumSlots (data0 ++ chunks.flatten)),
       [CbCall.startCb addr, CbCall.endCb addr (data0 ++ chunks.flatten).length]) :=
  ⟨run_addr sh a0 b0 addr k0, run_txn sh a0 b0 addr k0 data0 chunks⟩

/-- Claim C4: the end handler fires at most once per select-assertion cycle:
on deassertion it fires exactly once with `(current_address_, rx_bytes_)`
when the cycle reached `kTransfer` and never otherwise, after which the mode
is unconditionally `kInactive`; the byte pump records no end-handler call,
the assertion edge records no call at all, and the byte pump never leaves
`kTransfer`, so a cycle that entered the data phase is still in it at
deassertion. -/
theorem C4_end_once :
    (∀ (s : EngineState),
      ISR_HandleNssRise s =
        ({ s with mode := Mode.kInactive, tx_bytes := 0, rx_bytes := 0 }, [],
         if s.mode = Mode.kTransfer
         then [CbCall.endCb s.current_address s.rx_bytes] else [])) ∧
    (∀ (sh : Nat → Buffer) (s : EngineState) (ps : List (Nat × Nat)),
      ((ISR_SPI sh s ps).2.2).filterMap endArg = []) ∧
    (∀ (s : EngineState), (ISR_HandleNssFall s).2.2 = ([] : List CbCall)) ∧
    (∀ (sh : Nat → Buffer) (s : EngineState) (ps : List (Nat × Nat)),
      (ISR_SPI sh { s with mode := Mode.kTransfer } ps).1.mode = Mode.kTransfer) := by
  refine ⟨fun s => rfl, ?_, fun s => rfl, ?_⟩
  · intro sh s ps
    induction ps generalizing s with
    | nil => simp [ISR_SPI]
    | cons hd rest ih =>
      obtain ⟨x, k⟩ := hd
      obtain ⟨m, a, b, t, r⟩ := s
      cases m <;> simp [ISR_SPI, endArg, ih]
  · intro sh s ps
    obtain ⟨m, a, b, t, r⟩ := s
    simp [spi_transfer]

/-- Claim C6: a byte received while `kInactive` is read and discarded: the
state (mode, counters, address, buffers) is unchanged, nothing is written
and no callback fires. -/
theorem C6_inactive_discard (sh : Nat → Buffer) (a : Nat) (b : Buffer) (t r : Nat)
    (ps : List (Nat × Nat)) :
    ISR_SPI sh ⟨Mode.kInactive, a, b, t, r⟩ ps = (⟨Mode.kInactive, a, b, t, r⟩, [], []) :=
  spi_inactive sh a b t r ps

/-- Claim C7: driving select to the asserted level while it is already
asserted produces no edge, hence invokes no handler: the engine state is
unchanged, no callback fires, no counter is touched, and any subsequent
stimuli — in particular the next deassertion — behave exactly as if the
redundant assertion had not happened. -/
theorem C7_reassert_ignored (sh : Nat → Buffer) (e : EngineState)
    (inputs : List LineInput) :
    lineStep sh ⟨true, e⟩ (LineInput.setSelect true) = (⟨true, e⟩, [], []) ∧
    lineRun sh ⟨true, e⟩ (LineInput.setSelect true :: inputs) =
      lineRun sh ⟨true, e⟩ inputs := by
  constructor
  · rfl
  · simp [lineRun, lineStep]

/-- Claim C8: consecutive transactions are independent: after any select
deassertion the mode is `kInactive` and both counters are zero, and from two
post-deassertion states — which may carry different leftover buffers and
addresses — every interrupt sequence produces identical written bytes and
identical callback invocations, and leaves observationally equal states (in
particular, identical buffers and stored bytes once a data phase has been
entered). -/
theorem C8_transaction_independence (sh : Nat → Buffer) (s0 s1 : EngineState)
    (events : List Event) :
    ((ISR_HandleNssRise s0).1.mode = Mode.kInactive ∧
     (ISR_HandleNssRise s0).1.tx_bytes = 0 ∧ (ISR_HandleNssRise s0).1.rx_bytes = 0) ∧
    (run sh (ISR_HandleNssRise s0).1 events).2 =
      (run sh (ISR_HandleNssRise s1).1 events).2 ∧
    SameObs (run sh (ISR_HandleNssRise s0).1 events).1
      (run sh (ISR_HandleNssRise s1).1 events).1 :=
  ⟨⟨rfl, rfl, rfl⟩,
   run_obs sh events (ISR_HandleNssRise s0).1 (ISR_HandleNssRise s1).1
     ⟨rfl, rfl, rfl, fun hc => absurd hc (by simp [ISR_HandleNssRise])⟩⟩

/-- Claim C9: a transaction in which the master clocks only the address byte
and then deasserts select: the engine enters `kTransfer` upon the address,
the start handler fires with that address, and the end handler fires exactly
once with `(address, 0)`. -/
theorem C9_zero_data (sh : Nat → Buffer) (a0 : Nat) (b0 : Buffer) (addr k0 : Nat) :
    (run sh ⟨Mode.kInactive, a0, b0, 0, 0⟩
        [Event.nssFall, Event.spi [(addr, k0)]]).1.mode = Mode.kTransfer ∧
    run sh ⟨Mode.kInactive, a0, b0, 0, 0⟩
        [Event.nssFall, Event.spi [(addr, k0)], Event.nssRise] =
      (⟨Mode.kInactive, addr, sh addr, 0, 0⟩, 0 :: txSlice (sh addr).tx 0 k0,
       [CbCall.startCb addr, CbCall.endCb addr 0]) := by
  constructor
  · rw [run_addr]
  · have h := run_txn_core sh a0 b0 addr k0 []
    simpa [storeLoop, sumSlots] using h

/-- Claim C10: the constructor resolves a peripheral instance exactly when
all four pin-to-peripheral lookups agree on a non-null instance: the nested
`merge` returns the common value when all four lookups are equal and the
default (null, 0) value otherwise, and the construction-time assertion lets
construction proceed iff the resolved instance is non-null. -/
theorem C10_pin_merge (m i c s : Nat) :
    resolveSpi m m m m = m ∧
    ((m = i ∧ i = c ∧ c = s) ∨ resolveSpi m i c s = 0) ∧
    (constructSpi m i c s ≠ none ↔ (m = i ∧ i = c ∧ c = s ∧ m ≠ 0)) := by
  have hres : resolveSpi m i c s = if m = i ∧ i = c ∧ c = s then m else 0 := by
    unfold resolveSpi merge
    split_ifs <;> simp_all
  refine ⟨by simp [resolveSpi, merge], ?_, ?_⟩
  · rw [hres]
    by_cases h : m = i ∧ i = c ∧ c = s
    · exact Or.inl h
    · simp [h]
  · unfold constructSpi
    rw [hres]
    by_cases h : m = i ∧ i = c ∧ c = s <;> by_cases hm : m = 0 <;>
      simp [h, hm]

/-- Claim C5 (counterexample to the claim as stated): the counters are not
reset by the select-assertion handler and they are reset at another time,
namely at select deassertion.  From the reset state, after select assertion,
address byte 16 and one data byte, the counters hold `tx_bytes_ = 2`,
`rx_bytes_ = 1`; the deassertion handler resets both to 0, while the
assertion handler itself leaves both unchanged. -/
theorem C5_reset_counterexample :
    (run (fun _ => ⟨[170, 187, 204], [0, 0, 0, 0, 0]⟩) initEngine
        [Event.nssFall, Event.spi [(16, 1), (2, 1)]]).1.rx_bytes = 1 ∧
    (run (fun _ => ⟨[170, 187, 204], [0, 0, 0, 0, 0]⟩) initEngine
        [Event.nssFall, Event.spi [(16, 1), (2, 1)]]).1.tx_bytes = 2 ∧
    (ISR_HandleNssRise
      (run (fun _ => ⟨[170, 187, 204], [0, 0, 0, 0, 0]⟩) initEngine
        [Event.nssFall, Event.spi [(16, 1), (2, 1)]]).1).1.rx_bytes = 0 ∧
    (ISR_HandleNssRise
      (run (fun _ => ⟨[170, 187, 204], [0, 0, 0, 0, 0]⟩) initEngine
        [Event.nssFall, Event.spi [(16, 1), (2, 1)]]).1).1.tx_bytes = 0 ∧
    (ISR_HandleNssFall
      (run (fun _ => ⟨[170, 187, 204], [0, 0, 0, 0, 0]⟩) initEngine
        [Event.nssFall, Event.spi [(16, 1), (2, 1)]]).1).1.rx_bytes = 1 ∧
    (ISR_HandleNssFall
      (run (fun _ => ⟨[170, 187, 204], [0, 0, 0, 0, 0]⟩) initEngine
        [Event.nssFall, Event.spi [(16, 1), (2, 1)]]).1).1.tx_bytes = 2 := by
  decide

/-- Claim C5 (amended): on select assertion the engine transitions to
`kWaitingAddress` and enqueues the placeholder 0 byte, leaving the counters
(and every other field) untouched; the counters are reset to zero by the
deassertion handler, and they start at zero, so whenever select is
deasserted — in particular whenever a new transaction is about to be armed —
they are already zero. -/
theorem C5_counters_at_arming :
    (∀ (s : EngineState),
      ISR_HandleNssFall s = ({ s with mode := Mode.kWaitingAddress }, [0], [])) ∧
    (∀ (s : EngineState),
      (ISR_HandleNssRise s).1.tx_bytes = 0 ∧ (ISR_HandleNssRise s).1.rx_bytes = 0) ∧
    (∀ (sh : Nat → Buffer) (inputs : List LineInput),
      lineIdle (lineRun sh initLine inputs).1 = true) :=
  ⟨fun _ => rfl, fun _ => ⟨rfl, rfl⟩,
   fun sh inputs => lineRun_idle sh inputs initLine (by decide)⟩

/-! ## Concrete scenarios of the specification, as checks of the embedding -/

/-- Scenario: address 16 (0x10), tx = [0xAA, 0xBB, 0xCC], rx capacity 5,
four data bytes [1, 2, 3, 4], one free transmit slot per received byte.
The start handler fires once with 16, the written stream is the placeholder
followed by the tx content zero-padded, rx holds the four bytes with the
fifth cell unchanged, and the end handler fires once with (16, 4). -/
theorem scenario_four_bytes :
    run (fun _ => ⟨[170, 187, 204], [0, 0, 0, 0, 0]⟩) initEngine
        (txnEvents 16 1 [(1, 1), (2, 1), (3, 1), (4, 1)] []) =
      (⟨Mode.kInactive, 16, ⟨[170, 187, 204], [1, 2, 3, 4, 0]⟩, 0, 0⟩,
       [0, 170, 187, 204, 0, 0],
       [CbCall.startCb 16, CbCall.endCb 16 4]) := by
  decide

/-- Scenario: same setup, six data bytes: rx holds only the first five and
the end handler receives the overflowed count 6. -/
theorem scenario_overflow :
    run (fun _ => ⟨[170, 187, 204], [0, 0, 0, 0, 0]⟩) initEngine
        (txnEvents 16 1 [(1, 1), (2, 1), (3, 1), (4, 1), (5, 1), (6, 1)] []) =
      (⟨Mode.kInactive, 16, ⟨[170, 187, 204], [1, 2, 3, 4, 5]⟩, 0, 0⟩,
       [0, 170, 187, 204, 0, 0, 0, 0],
       [CbCall.startCb 16, CbCall.endCb 16 6]) := by
  decide

/-- Scenario: select asserted and deasserted with no byte clocked: no start
handler call, no end handler call. -/
theorem scenario_no_address :
    (run (fun _ => ⟨[170, 187, 204], [0, 0, 0, 0, 0]⟩) initEngine
        [Event.nssFall, Event.nssRise]).2.2 = [] := by
  decide

end RegisterSPISlave
